import Mathlib

/-!
Verification of the sliding-window waveform renderer in `wavefile.py`
(`CenteredScrollingPlayer`): the visible-window computation, sample-index
clamping, linspace time axis, vertical auto-scaling, aspect-preserving
background placement, and the two-decoder audio loading fallback.

The embedding works over `ℚ`.  Python `int(x)` (truncation toward zero) is
`pyInt`; Python list slicing `l[a:b]` is `pySlice`; `np.linspace` is
`linspace`; `np.max(np.abs(v))` is `ampMax`.  The mutable matplotlib/Qt
state touched by `update_plot` is the record `PlotState`, and `update_plot`
is embedded as a pure state transformer.
-/

namespace AudioVisualizer

/-- Source: `self.window_sec = 10.0`, the total visible window in seconds. -/
def window_sec : ℚ := 10

/-- Source: `self.half_window = self.window_sec / 2`. -/
def half_window : ℚ := window_sec / 2

/-- Source: `margin = 0.1` in `update_plot`. -/
def margin : ℚ := 1 / 10

/-- Python `int(x)` on a real value: truncation toward zero. -/
def pyInt (q : ℚ) : ℤ := if 0 ≤ q then ⌊q⌋ else ⌈q⌉

/-- Python list slicing `l[a:b]` with integer bounds and step 1:
negative indices count from the end, then both are clamped to `[0, n]`. -/
def pySlice (l : List ℚ) (a b : ℤ) : List ℚ :=
  let n : ℤ := l.length
  let lo := if a < 0 then max 0 (a + n) else min a n
  let hi := if b < 0 then max 0 (b + n) else min b n
  (l.take hi.toNat).drop lo.toNat

/-- NumPy `np.linspace(a, b, num)`: `num` evenly spaced values from `a` to
`b` inclusive; `[a]` for `num = 1`, `[]` for `num = 0`. -/
def linspace (a b : ℚ) (num : ℕ) : List ℚ :=
  if num ≤ 1 then List.replicate num a
  else (List.range num).map fun (i : ℕ) => a + (i : ℚ) * (b - a) / ((num : ℚ) - 1)

/-- Source: `np.max(np.abs(v))` for the visible slice (0 on the empty
list; the code only evaluates it on slices of length ≥ 2). -/
def ampMax (l : List ℚ) : ℚ := l.foldl (fun m x => max m |x|) 0

/-- Source: `current_sec = pos_ms / 1000.0`. -/
def currentSec (pos_ms : ℤ) : ℚ := (pos_ms : ℚ) / 1000

/-- Source: `start_sec = max(0.0, current_sec - self.half_window)`. -/
def startSecOf (p : ℚ) : ℚ := max 0 (p - half_window)

/-- Source: `end_sec = start_sec + self.window_sec`. -/
def endSecOf (p : ℚ) : ℚ := startSecOf p + window_sec

/-- Source: `start_idx = max(0, int(start_sec * self.sr))`. -/
def start_idx (sr p : ℚ) : ℤ := max 0 (pyInt (startSecOf p * sr))

/-- Source: `end_idx = min(len(self.samples), int(end_sec * self.sr))`. -/
def end_idx (sr : ℚ) (n : ℕ) (p : ℚ) : ℤ := min (n : ℤ) (pyInt (endSecOf p * sr))

/-- Source: `visible = self.samples[start_idx:end_idx]`. -/
def visibleSlice (samples : List ℚ) (sr p : ℚ) : List ℚ :=
  pySlice samples (start_idx sr p) (end_idx sr samples.length p)

/-- The `_place_background` geometry: given the background image pixel size
`(iw, ih)` and the current axes limits, compute the extent
`(x0_img, x1_img, y0_img, y1_img)` passed to `imshow`. -/
def place_background (iw ih x0 x1 y0 y1 : ℚ) : ℚ × ℚ × ℚ × ℚ :=
  let axis_w := x1 - x0
  let axis_h := if y1 - y0 ≠ 0 then y1 - y0 else 1
  let img_ratio := if ih ≠ 0 then iw / ih else 1
  let axis_ratio := axis_w / axis_h
  let target_w := if img_ratio ≥ axis_ratio then axis_w else axis_h * img_ratio
  let target_h := if img_ratio ≥ axis_ratio then axis_w / img_ratio else axis_h
  let x0_img := x0 + (axis_w - target_w) / 2
  let y0_img := y0 + (axis_h - target_h) / 2
  (x0_img, x0_img + target_w, y0_img, y0_img + target_h)

/-- The plot/UI state read and mutated by `update_plot`: the loaded sample
buffer and rate, the line's data, the axes limits, the playhead position,
the optional background image (its pixel size) and its current extent, and
the slider value. -/
structure PlotState where
  samples : Option (List ℚ)
  sr : ℚ
  lineData : List (ℚ × ℚ)
  xlim : ℚ × ℚ
  ylim : ℚ × ℚ
  playhead : ℚ
  bg : Option (ℚ × ℚ)
  bgExtent : Option (ℚ × ℚ × ℚ × ℚ)
  sliderValue : ℤ
deriving DecidableEq

/-- The non-degenerate body of `update_plot` (reached when at least 2
samples are visible): sets the line data to `zip(t, visible)` with
`t = linspace(start_idx/sr, (start_idx+len(visible))/sr, len(visible))`,
sets `xlim` to the window, moves the playhead, re-places the background
(using the new `xlim` but the ylim from before this update, exactly as the
code calls `_place_background` before `set_ylim`), rescales `ylim` to
`±amp_max*(1+margin)` when `amp_max > 0`, and sets the slider. -/
def renderedState (s : PlotState) (l : List ℚ) (pos_ms : ℤ) : PlotState :=
  let p := currentSec pos_ms
  let visible := visibleSlice l s.sr p
  let a : ℚ := (start_idx s.sr p : ℚ) / s.sr
  let b : ℚ := ((start_idx s.sr p : ℚ) + (visible.length : ℚ)) / s.sr
  let t := linspace a b visible.length
  let amp := ampMax visible
  { samples := s.samples
    sr := s.sr
    lineData := t.zip visible
    xlim := (startSecOf p, endSecOf p)
    ylim := if 0 < amp then (-(amp * (1 + margin)), amp * (1 + margin)) else s.ylim
    playhead := p
    bg := s.bg
    bgExtent :=
      match s.bg with
      | some (iw, ih) =>
          some (place_background iw ih (startSecOf p) (endSecOf p) s.ylim.1 s.ylim.2)
      | none => s.bgExtent
    sliderValue := pos_ms }

/-- Source `update_plot(pos_ms)`: returns immediately when no samples are loaded
or when fewer than 2 samples are visible; otherwise performs the full
render described by `renderedState`. -/
def update_plot (s : PlotState) (pos_ms : ℤ) : PlotState :=
  match s.samples with
  | none => s
  | some l =>
      if (visibleSlice l s.sr (currentSec pos_ms)).length < 2 then s
      else renderedState s l pos_ms

/-- Source `process_audio(path)`: try the primary decoder (librosa); on failure
try the fallback decoder (moviepy); on failure of both return the null
result.  The two library calls are opaque, so each decoder is embedded as
its outcome: `some (samples, sr)` on success, `none` when it raises.  The
returned `Bool` records whether the fallback decoder was attempted. -/
def process_audio (primary fallback : Option (List ℚ × ℤ)) :
    Option (List ℚ × ℤ) × Bool :=
  match primary with
  | some r => (some r, false)
  | none =>
      match fallback with
      | some r => (some r, true)
      | none => (none, true)

/-- State as built by `__init__` (before/after a load): `xlim = (0, 10)`,
line empty, playhead at 0, no background image, slider at 0. -/
def baseState (samples : Option (List ℚ)) (sr : ℚ) (ylim : ℚ × ℚ) : PlotState :=
  { samples := samples
    sr := sr
    lineData := []
    xlim := (0, window_sec)
    ylim := ylim
    playhead := 0
    bg := none
    bgExtent := none
    sliderValue := 0 }

/-- The spec's window invariant: the visible-window start is never
negative and the window width is constant at `window_sec`. -/
def windowInv (s : PlotState) : Prop :=
  0 ≤ s.xlim.1 ∧ s.xlim.2 - s.xlim.1 = window_sec

/-! ## Helper lemmas -/

/-- On nonnegative inputs `pyInt` is the floor. -/
theorem pyInt_of_nonneg {q : ℚ} (h : 0 ≤ q) : pyInt q = ⌊q⌋ := if_pos h

/-- On nonnegative inputs `pyInt` is monotone. -/
theorem pyInt_le_pyInt {q r : ℚ} (hq : 0 ≤ q) (hqr : q ≤ r) :
    pyInt q ≤ pyInt r := by
  rw [pyInt_of_nonneg hq, pyInt_of_nonneg (hq.trans hqr)]
  exact Int.floor_le_floor hqr

theorem startSecOf_nonneg (p : ℚ) : 0 ≤ startSecOf p := le_max_left _ _

theorem endSecOf_sub_startSecOf (p : ℚ) : endSecOf p - startSecOf p = window_sec := by
  simp [endSecOf]

/-- Lemma: `update_plot` never changes the horizontal limits except to a fresh
window `(startSecOf p, endSecOf p)`, so it preserves the window invariant. -/
theorem windowInv_update (s : PlotState) (pos_ms : ℤ) (h : windowInv s) :
    windowInv (update_plot s pos_ms) := by
  unfold update_plot
  cases hs : s.samples with
  | none => exact h
  | some l =>
      by_cases hlen : (visibleSlice l s.sr (currentSec pos_ms)).length < 2
      · simpa [hlen] using h
      · simp only [hlen, if_false]
        refine ⟨startSecOf_nonneg _, ?_⟩
        simpa [renderedState] using endSecOf_sub_startSecOf (currentSec pos_ms)

theorem windowInv_foldl (l : List ℤ) (s : PlotState) (h : windowInv s) :
    windowInv (List.foldl update_plot s l) := by
  induction l generalizing s with
  | nil => exact h
  | cons x xs ih => exact ih _ (windowInv_update s x h)

theorem currentSec_zero : currentSec 0 = 0 := by
  norm_num [currentSec]

theorem start_idx_one_zero : start_idx 1 (currentSec 0) = 0 := by
  norm_num [start_idx, pyInt, startSecOf, currentSec, half_window, window_sec,
    max_def]

theorem end_idx_one_zero : end_idx 1 1 (currentSec 0) = 1 := by
  norm_num [end_idx, pyInt, endSecOf, startSecOf, currentSec, half_window,
    window_sec, max_def, min_def]

/-- The single-sample buffer gives the single-sample visible slice. -/
theorem visibleSlice_single : visibleSlice [1] 1 (currentSec 0) = [1] := by
  rw [visibleSlice]
  show pySlice [1] (start_idx 1 (currentSec 0)) (end_idx 1 1 (currentSec 0)) = [1]
  rw [start_idx_one_zero, end_idx_one_zero]
  rfl

/-- In the non-degenerate case `update_plot` performs the full render. -/
theorem update_plot_eq_rendered (s : PlotState) (l : List ℚ) (pos_ms : ℤ)
    (hs : s.samples = some l)
    (h2 : 2 ≤ (visibleSlice l s.sr (currentSec pos_ms)).length) :
    update_plot s pos_ms = renderedState s l pos_ms := by
  unfold update_plot
  rw [hs]
  simp [Nat.not_lt.mpr h2]

theorem end_idx_two_zero : end_idx 1 2 (currentSec 0) = 2 := by
  norm_num [end_idx, pyInt, endSecOf, startSecOf, currentSec, half_window,
    window_sec, max_def, min_def]

/-- The two-sample buffer `[0, 1/2]` is fully visible at position 0. -/
theorem visibleSlice_pair : visibleSlice [0, 1/2] 1 (currentSec 0) = [0, 1/2] := by
  rw [visibleSlice]
  show pySlice [0, 1/2] (start_idx 1 (currentSec 0)) (end_idx 1 2 (currentSec 0))
      = [0, 1/2]
  rw [start_idx_one_zero, end_idx_two_zero]
  rfl

theorem linspace_length (a b : ℚ) (n : ℕ) : (linspace a b n).length = n := by
  unfold linspace
  split
  · rw [List.length_replicate]
  · rw [List.length_map, List.length_range]

theorem linspace_getElem (a b : ℚ) (n : ℕ) (h2 : 2 ≤ n) (i : ℕ)
    (h : i < (linspace a b n).length) :
    (linspace a b n)[i] = a + (i : ℚ) * (b - a) / ((n : ℚ) - 1) := by
  have hn : ¬ n ≤ 1 := by omega
  simp only [linspace, if_neg hn, List.getElem_map, List.getElem_range]

theorem linspace_head (a b : ℚ) (n : ℕ) (h2 : 2 ≤ n) :
    (linspace a b n).head? = some a := by
  have hl : 0 < (linspace a b n).length := by rw [linspace_length]; omega
  rw [List.head?_eq_getElem?, List.getElem?_eq_getElem hl,
    linspace_getElem a b n h2 0 hl]
  norm_num

theorem linspace_last (a b : ℚ) (n : ℕ) (h2 : 2 ≤ n) :
    (linspace a b n).getLast? = some b := by
  have hlen := linspace_length a b n
  have hl : (linspace a b n).length - 1 < (linspace a b n).length := by
    rw [hlen]; omega
  have hg := linspace_getElem a b n h2 ((linspace a b n).length - 1) hl
  rw [List.getLast?_eq_getElem?, List.getElem?_eq_getElem hl, hg, hlen]
  have h2q : (2 : ℚ) ≤ (n : ℚ) := by exact_mod_cast h2
  have hne : (n : ℚ) - 1 ≠ 0 := sub_ne_zero.mpr (by linarith)
  have hcast : ((n - 1 : ℕ) : ℚ) = (n : ℚ) - 1 := by
    rw [Nat.cast_sub (by omega : 1 ≤ n)]
    norm_num
  rw [hcast, mul_div_cancel_left₀ _ hne]
  congr 1
  ring

theorem end_idx_three_zero : end_idx 1 3 (currentSec 0) = 3 := by
  norm_num [end_idx, pyInt, endSecOf, startSecOf, currentSec, half_window,
    window_sec, max_def, min_def]

/-- The three-sample buffer `[0, 0, 1]` is fully visible at position 0. -/
theorem visibleSlice_triple :
    visibleSlice [0, 0, 1] 1 (currentSec 0) = [0, 0, 1] := by
  rw [visibleSlice]
  show pySlice [0, 0, 1] (start_idx 1 (currentSec 0)) (end_idx 1 3 (currentSec 0))
      = [0, 0, 1]
  rw [start_idx_one_zero, end_idx_three_zero]
  rfl

/-! ## Claims -/

/-- C1: for every position update with position `p` seconds, the window is
`start = max(0, p - window/2)`, `end = start + window` with `window = 10`;
for `p < 5` the start is exactly 0, and for `p ≥ 5` the window is exactly
centered on `p` (`start = p - 5`). -/
theorem window_formula (p : ℚ) :
    startSecOf p = max 0 (p - window_sec / 2) ∧
    endSecOf p = startSecOf p + 10 ∧
    (p < 5 → startSecOf p = 0) ∧
    (5 ≤ p → startSecOf p = p - 5) := by
  refine ⟨rfl, rfl, fun h => ?_, fun h => ?_⟩
  · have : p - half_window ≤ 0 := by
      simp only [half_window, window_sec]
      linarith
    simpa [startSecOf] using max_eq_left this
  · have h5 : half_window = 5 := by norm_num [half_window, window_sec]
    simp only [startSecOf, h5]
    exact max_eq_right (by linarith)

/-- Witness for C1 at `p = 2` and `p = 7`. -/
theorem window_formula_witness :
    startSecOf 2 = 0 ∧ startSecOf 7 = 2 := by
  constructor
  · exact (window_formula 2).2.2.1 (by norm_num)
  · have h := (window_formula 7).2.2.2 (by norm_num)
    rw [h]; norm_num

/-- C2 as stated is false: with a one-sample buffer at rate 1 and position
100 s, the window `[95, 105)` lies past the buffer, `start_idx = 95` but
`end_idx = min(1, 105) = 1 < start_idx`. -/
theorem index_range_counterexample :
    ¬ (0 ≤ start_idx 1 100 ∧ end_idx 1 1 100 ≤ 1 ∧
        start_idx 1 100 ≤ end_idx 1 1 100) := by
  have h1 : start_idx 1 100 = 95 := by
    norm_num [start_idx, pyInt, startSecOf, half_window, window_sec, max_def]
  have h2 : end_idx 1 1 100 = 1 := by
    norm_num [end_idx, pyInt, endSecOf, startSecOf, half_window, window_sec,
      max_def, min_def]
  rw [h1, h2]
  norm_num

/-- C2 amended: for every position `p ≥ 0`, buffer length `n`, and rate
`sr > 0`, the computed indices satisfy `0 ≤ start_idx`, `0 ≤ end_idx ≤ n`,
and `start_idx ≤ end_idx` whenever `start_idx ≤ n` (that is, whenever the
window start does not lie past the buffer end). -/
theorem index_range_amended (sr p : ℚ) (n : ℕ) (hp : 0 ≤ p) (hsr : 0 < sr) :
    0 ≤ start_idx sr p ∧ 0 ≤ end_idx sr n p ∧ end_idx sr n p ≤ (n : ℤ) ∧
    (start_idx sr p ≤ (n : ℤ) → start_idx sr p ≤ end_idx sr n p) := by
  have hs0 : 0 ≤ startSecOf p * sr :=
    mul_nonneg (startSecOf_nonneg p) hsr.le
  have he0 : 0 ≤ endSecOf p * sr := by
    have : 0 ≤ endSecOf p := by
      have := startSecOf_nonneg p
      simp only [endSecOf, window_sec]
      linarith
    exact mul_nonneg this hsr.le
  have hmono : pyInt (startSecOf p * sr) ≤ pyInt (endSecOf p * sr) := by
    refine pyInt_le_pyInt hs0 ?_
    have : startSecOf p ≤ endSecOf p := by
      simp only [endSecOf, window_sec]; linarith
    exact mul_le_mul_of_nonneg_right this hsr.le
  have hend0 : 0 ≤ pyInt (endSecOf p * sr) := by
    rw [pyInt_of_nonneg he0]
    exact Int.floor_nonneg.mpr he0
  refine ⟨le_max_left _ _, le_min (Int.natCast_nonneg n) hend0, min_le_left _ _,
    fun hle => le_min hle (max_le hend0 hmono)⟩

/-- Witness for C2 amended at `sr = 1`, `n = 1`, `p = 0`. -/
theorem index_range_amended_witness :
    start_idx 1 0 ≤ end_idx 1 1 0 := by
  have hs : start_idx 1 0 = 0 := by
    norm_num [start_idx, pyInt, startSecOf, half_window, window_sec, max_def]
  exact (index_range_amended 1 0 1 le_rfl one_pos).2.2.2 (by rw [hs]; norm_num)

/-- A loaded single-sample state with prior vertical bounds `(-2, 2)`. -/
def singleState : PlotState := baseState (some [1]) 1 (-2, 2)

/-- C3 as stated is false: at position 0 on the one-sample buffer `[1]`
the visible slice `[1]` has peak `1 ≠ 0`, yet the `len < 2` guard returns
before `set_ylim`, so the bounds stay `(-2, 2)` instead of
`±peak*1.1 = ±11/10`. -/
theorem ylim_counterexample :
    0 < ampMax (visibleSlice [1] 1 (currentSec 0)) ∧
    (update_plot singleState 0).ylim ≠
      (-(ampMax (visibleSlice [1] 1 (currentSec 0)) * (1 + margin)),
        ampMax (visibleSlice [1] 1 (currentSec 0)) * (1 + margin)) := by
  have hv := visibleSlice_single
  constructor
  · rw [hv]
    norm_num [ampMax]
  · have hupd : update_plot singleState 0 = singleState := by
      have hlen : (visibleSlice [1] (1 : ℚ) (currentSec 0)).length < 2 := by
        rw [hv]; decide
      show (if (visibleSlice [1] (1 : ℚ) (currentSec 0)).length < 2
          then singleState else renderedState singleState [1] 0) = singleState
      rw [if_pos hlen]
    rw [hupd, hv]
    have hy : singleState.ylim = (-2, 2) := rfl
    rw [hy]
    norm_num [ampMax, margin, Prod.ext_iff]

/-- C3 amended: for every *non-degenerate* position update (at least 2
samples visible): if the visible slice's peak is non-zero the vertical
bounds become exactly `±peak*(1+margin)`; if the peak is exactly 0 the
prior bounds are left unchanged. -/
theorem ylim_scaling (s : PlotState) (l : List ℚ) (pos_ms : ℤ)
    (hs : s.samples = some l)
    (h2 : 2 ≤ (visibleSlice l s.sr (currentSec pos_ms)).length) :
    (0 < ampMax (visibleSlice l s.sr (currentSec pos_ms)) →
      (update_plot s pos_ms).ylim =
        (-(ampMax (visibleSlice l s.sr (currentSec pos_ms)) * (1 + margin)),
          ampMax (visibleSlice l s.sr (currentSec pos_ms)) * (1 + margin))) ∧
    (ampMax (visibleSlice l s.sr (currentSec pos_ms)) = 0 →
      (update_plot s pos_ms).ylim = s.ylim) := by
  rw [update_plot_eq_rendered s l pos_ms hs h2]
  constructor
  · intro hpos
    simp [renderedState, hpos]
  · intro hzero
    simp [renderedState, hzero]

/-- Witness for C3 amended: buffer `[0, 1/2]`, position 0: the slice peak
is `1/2` and the bounds become `±(1/2)*(11/10) = ±11/20`. -/
theorem ylim_scaling_witness :
    (update_plot (baseState (some [0, 1/2]) 1 (-(11/10), 11/10)) 0).ylim
      = (-(11/20), 11/20) := by
  have hlen : 2 ≤ (visibleSlice [0, 1/2]
      (baseState (some [0, 1/2]) 1 (-(11/10), 11/10)).sr (currentSec 0)).length := by
    show 2 ≤ (visibleSlice [0, 1/2] 1 (currentSec 0)).length
    rw [visibleSlice_pair]
    decide
  have hamp : 0 < ampMax (visibleSlice [0, 1/2]
      (baseState (some [0, 1/2]) 1 (-(11/10), 11/10)).sr (currentSec 0)) := by
    show 0 < ampMax (visibleSlice [0, 1/2] 1 (currentSec 0))
    rw [visibleSlice_pair]
    norm_num [ampMax]
  have h := (ylim_scaling (baseState (some [0, 1/2]) 1 (-(11/10), 11/10))
    [0, 1/2] 0 rfl hlen).1 hamp
  rw [h]
  have hv : ampMax (visibleSlice [0, 1/2]
      (baseState (some [0, 1/2]) 1 (-(11/10), 11/10)).sr (currentSec 0)) = 1/2 := by
    show ampMax (visibleSlice [0, 1/2] 1 (currentSec 0)) = 1/2
    rw [visibleSlice_pair]
    norm_num [ampMax]
  rw [hv]
  norm_num [margin]

/-- C5: for every non-degenerate update with selected index range of
`count ≥ 2` samples, the time values paired with the visible amplitudes
are exactly `count` evenly spaced values (`i`-th value
`a + i*(b-a)/(count-1)`) whose first element is `start_idx/sr` and whose
last element is `(start_idx+count)/sr`. -/
theorem time_axis (s : PlotState) (l : List ℚ) (pos_ms : ℤ) (n : ℕ) (a b : ℚ)
    (td : List ℚ)
    (hs : s.samples = some l)
    (hn : n = (visibleSlice l s.sr (currentSec pos_ms)).length)
    (h2 : 2 ≤ n)
    (ha : a = (start_idx s.sr (currentSec pos_ms) : ℚ) / s.sr)
    (hb : b = ((start_idx s.sr (currentSec pos_ms) : ℚ) + (n : ℚ)) / s.sr)
    (htd : td = (update_plot s pos_ms).lineData.map Prod.fst) :
    td.length = n ∧
    (∀ i, ∀ h : i < td.length,
      td.get ⟨i, h⟩ = a + (i : ℚ) * (b - a) / ((n : ℚ) - 1)) ∧
    td.head? = some a ∧
    td.getLast? = some b := by
  have h2v : 2 ≤ (visibleSlice l s.sr (currentSec pos_ms)).length := hn ▸ h2
  have hld : (update_plot s pos_ms).lineData
      = (linspace a b n).zip (visibleSlice l s.sr (currentSec pos_ms)) := by
    rw [update_plot_eq_rendered s l pos_ms hs h2v]
    subst hn ha hb
    rfl
  have htd2 : td = linspace a b n := by
    rw [htd, hld, List.map_fst_zip _ _ (by rw [linspace_length, hn])]
  subst htd2
  refine ⟨linspace_length a b n, ?_, linspace_head a b n h2, linspace_last a b n h2⟩
  intro i h
  rw [List.get_eq_getElem]
  exact linspace_getElem a b n h2 i h

/-- Witness state for C5. -/
def tripleState : PlotState := baseState (some [0, 0, 1]) 1 (-(11/10), 11/10)

/-- Witness for C5: buffer `[0, 0, 1]` at rate 1, position 0: the first
time value is `start_idx/sr = 0`. -/
theorem time_axis_witness :
    ((update_plot tripleState 0).lineData.map Prod.fst).head? = some 0 := by
  have hn3 : (3 : ℕ) = (visibleSlice [0, 0, 1] tripleState.sr (currentSec 0)).length := by
    show (3 : ℕ) = (visibleSlice [0, 0, 1] 1 (currentSec 0)).length
    rw [visibleSlice_triple]
    rfl
  have ha0 : (0 : ℚ) = (start_idx tripleState.sr (currentSec 0) : ℚ) / tripleState.sr := by
    show (0 : ℚ) = (start_idx 1 (currentSec 0) : ℚ) / 1
    rw [start_idx_one_zero]
    norm_num
  have hb3 : (3 : ℚ) = ((start_idx tripleState.sr (currentSec 0) : ℚ) + ((3 : ℕ) : ℚ))
      / tripleState.sr := by
    show (3 : ℚ) = ((start_idx 1 (currentSec 0) : ℚ) + ((3 : ℕ) : ℚ)) / 1
    rw [start_idx_one_zero]
    norm_num
  exact (time_axis tripleState [0, 0, 1] 0 3 0 3 _ rfl hn3 (by norm_num) ha0 hb3
    rfl).2.2.1

/-- C6: for every background image with positive pixel size `(iw, ih)` and
axis bounds with `x0 < x1`, `y0 < y1`, the placement rectangle
`(a, b, c, d)` has width/height ratio exactly `iw/ih`, lies inside
`[x0, x1] × [y0, y1]`, and is centered on both axes (so in particular
within the leftover space on the non-fitted axis). -/
theorem place_background_spec (iw ih x0 x1 y0 y1 a b c d : ℚ)
    (hiw : 0 < iw) (hih : 0 < ih) (hx : x0 < x1) (hy : y0 < y1)
    (hp : place_background iw ih x0 x1 y0 y1 = (a, b, c, d)) :
    (b - a) / (d - c) = iw / ih ∧
    x0 ≤ a ∧ b ≤ x1 ∧ y0 ≤ c ∧ d ≤ y1 ∧
    a - x0 = x1 - b ∧ c - y0 = y1 - d := by
  have hw : 0 < x1 - x0 := by linarith
  have hh : 0 < y1 - y0 := by linarith
  have hy0 : y1 - y0 ≠ 0 := ne_of_gt hh
  have hih0 : ih ≠ 0 := ne_of_gt hih
  have hρ : 0 < iw / ih := div_pos hiw hih
  rw [place_background] at hp
  simp only [if_pos hy0, if_pos hih0] at hp
  rcases le_or_lt ((x1 - x0) / (y1 - y0)) (iw / ih) with hr | hr
  · simp only [if_pos (show iw / ih ≥ (x1 - x0) / (y1 - y0) from hr),
      Prod.mk.injEq] at hp
    obtain ⟨ha, hb, hc, hd⟩ := hp
    have hth : (x1 - x0) / (iw / ih) ≤ y1 - y0 := by
      rw [div_le_iff₀ hρ, mul_comm]
      exact (div_le_iff₀ hh).mp hr
    have hthpos : 0 < (x1 - x0) / (iw / ih) := div_pos hw hρ
    have hba : b - a = x1 - x0 := by rw [← ha, ← hb]; ring
    have hdc : d - c = (x1 - x0) / (iw / ih) := by rw [← hc, ← hd]; ring
    refine ⟨?_, by linarith, by linarith, by linarith, by linarith,
      by linarith, by linarith⟩
    rw [hba, hdc, div_div_cancel₀ (ne_of_gt hw)]
  · simp only [if_neg (show ¬ iw / ih ≥ (x1 - x0) / (y1 - y0) from not_le.mpr hr),
      Prod.mk.injEq] at hp
    obtain ⟨ha, hb, hc, hd⟩ := hp
    have htw : (y1 - y0) * (iw / ih) < x1 - x0 := by
      rw [mul_comm]
      exact (lt_div_iff₀ hh).mp hr
    have htwpos : 0 < (y1 - y0) * (iw / ih) := mul_pos hh hρ
    have hba : b - a = (y1 - y0) * (iw / ih) := by rw [← ha, ← hb]; ring
    have hdc : d - c = y1 - y0 := by rw [← hc, ← hd]; ring
    refine ⟨?_, by linarith, by linarith, by linarith, by linarith,
      by linarith, by linarith⟩
    rw [hba, hdc, mul_div_cancel_left₀ _ hy0]

/-- Witness for C6: a 2×1 image in axes `[0,10] × [-1,1]` is placed at
`(3, 7, -1, 1)`, whose width/height ratio is `2/1`. -/
theorem place_background_spec_witness :
    (7 - 3 : ℚ) / (1 - -1) = 2 / 1 :=
  (place_background_spec 2 1 0 10 (-1) 1 3 7 (-1) 1 (by norm_num) (by norm_num)
    (by norm_num) (by norm_num) (by norm_num [place_background])).1

/-- C9: buffer of 480000 samples at 48000 Hz; position 2000 ms gives
window `[0, 10)` and indices `[0, 480000)`; position 8000 ms gives window
`[3, 13)` with the end index clamped to the buffer end 480000. -/
theorem example_480000 :
    startSecOf (currentSec 2000) = 0 ∧
    endSecOf (currentSec 2000) = 10 ∧
    start_idx 48000 (currentSec 2000) = 0 ∧
    end_idx 48000 480000 (currentSec 2000) = 480000 ∧
    startSecOf (currentSec 8000) = 3 ∧
    endSecOf (currentSec 8000) = 13 ∧
    end_idx 48000 480000 (currentSec 8000) = 480000 := by
  norm_num [startSecOf, endSecOf, start_idx, end_idx, currentSec, half_window,
    window_sec, pyInt, max_def, min_def]

/-- C10: when no audio buffer is loaded (`samples is None`), a position
update returns immediately and changes nothing. -/
theorem update_plot_no_samples (s : PlotState) (pos_ms : ℤ)
    (h : s.samples = none) : update_plot s pos_ms = s := by
  unfold update_plot
  rw [h]

/-- Witness for C10 on a concrete unloaded state. -/
theorem update_plot_no_samples_witness :
    update_plot (baseState none 1 (-(11/10), 11/10)) 3000
      = baseState none 1 (-(11/10), 11/10) :=
  update_plot_no_samples _ 3000 rfl

/-- C4: when fewer than 2 samples fall in the computed range, the update
is a no-op: the returned state (line data, axes limits, playhead,
background, slider) is exactly the input state. -/
theorem update_plot_degenerate (s : PlotState) (l : List ℚ) (pos_ms : ℤ)
    (hs : s.samples = some l)
    (hlen : (visibleSlice l s.sr (currentSec pos_ms)).length < 2) :
    update_plot s pos_ms = s := by
  unfold update_plot
  rw [hs]
  simp [hlen]

/-- Witness for C4: a single-sample buffer gives a single-sample slice,
and the update leaves the state untouched. -/
theorem update_plot_degenerate_witness :
    (visibleSlice [1] 1 (currentSec 0)).length < 2 ∧
    update_plot (baseState (some [1]) 1 (-(11/10), 11/10)) 0
      = baseState (some [1]) 1 (-(11/10), 11/10) :=
  ⟨by rw [visibleSlice_single]; decide,
    update_plot_degenerate _ [1] 0 rfl
      (by show (visibleSlice [1] 1 (currentSec 0)).length < 2
          rw [visibleSlice_single]; decide)⟩

/-- C8: `process_audio` attempts the fallback decoder iff the primary
decoder fails, returns the null result iff both fail, and returns a
successful decoder's result unchanged. -/
theorem process_audio_spec (p f : Option (List ℚ × ℤ)) :
    ((process_audio p f).2 = true ↔ p = none) ∧
    ((process_audio p f).1 = none ↔ p = none ∧ f = none) ∧
    (∀ r, p = some r → (process_audio p f).1 = some r) ∧
    (∀ r, p = none → f = some r → (process_audio p f).1 = some r) := by
  cases p <;> cases f <;> simp [process_audio]

/-- Witness for C8: primary fails, fallback succeeds, its result is
returned unchanged. -/
theorem process_audio_spec_witness :
    (process_audio none (some ([0], 44100))).1 = some ([0], 44100) :=
  (process_audio_spec none (some ([0], 44100))).2.2.2 ([0], 44100) rfl rfl

/-- C7: after any sequence of position updates from the initial state, the
visible-window start is never negative and the window width is constant at
10 seconds. -/
theorem window_invariant (samples : Option (List ℚ)) (sr : ℚ) (ylim : ℚ × ℚ)
    (updates : List ℤ) :
    0 ≤ (List.foldl update_plot (baseState samples sr ylim) updates).xlim.1 ∧
    (List.foldl update_plot (baseState samples sr ylim) updates).xlim.2 -
      (List.foldl update_plot (baseState samples sr ylim) updates).xlim.1 = 10 :=
  windowInv_foldl updates _ ⟨le_refl 0, by norm_num [baseState, window_sec]⟩

end AudioVisualizer
